import Mathlib

/-!
Verification of the itinerary-store logic of the trip-planner application.

The source is a single React component (`src/unnamed/part_000`) over the
record type `Stop` (`src/src/types.ts`).  The store state is the list of
stops held by the component; the operations embedded below are:

* the save/reset effect (lines 78-86): after a state change, when the stop
  count exceeds 10 the collection is reset to empty and the persisted
  entry is removed, otherwise the collection is persisted;
* `addStop` (lines 88-105): builds a new `Stop` with `status = planned`,
  `order` equal to the pre-insertion count and `cost` coerced by
  `Number(...) || 0`, appends it and re-sorts the array by parsed
  `dateTime`;
* `toggleStatus` (lines 107-118): maps over the list, replacing the status
  of every stop whose `id` matches (forced status wins, otherwise
  `visited` becomes `planned` and anything else becomes `visited`);
* `deleteStop` (lines 120-122): filters out the stop with the given id;
* the derived views `sortedStops`, `nextStop`, `totalCost`
  (lines 124-129).

Modelling conventions: `dateTime` is represented by the timestamp that
`parseISO` yields (the code only ever compares `compareAsc (parseISO a)
(parseISO b)`), so it is a `Nat` ordered by `≤`.  JavaScript numbers are
modelled as integers (no claim depends on fractional values).  The
JavaScript array sort is stable (ECMAScript requirement); a stable
ascending sort is uniquely determined by its comparator, and
`List.insertionSort` with the non-strict comparator is exactly that
stable sort, so it is used as the model of `[...].sort(compareAsc ∘ parseISO)`.
-/

/-- Status of a stop: the union type `'planned' | 'visited' | 'skipped'`. -/
inductive Status where
  | planned
  | visited
  | skipped
deriving DecidableEq

/-- The `Stop` record of `src/src/types.ts`.  `notes` is kept as a plain
string (the form always supplies one); `cost` is optional in the record
type, hence `Option Int`. -/
structure Stop where
  id : String
  title : String
  address : String
  dateTime : Nat
  notes : String
  cost : Option Int
  status : Status
  order : Nat
deriving DecidableEq

/-- Comparator used by every sort in the component:
`compareAsc (parseISO a.dateTime) (parseISO b.dateTime)` sorts ascending
by the parsed date, i.e. by our `dateTime` timestamps. -/
def leD (a b : Stop) : Prop := a.dateTime ≤ b.dateTime

instance : DecidableRel leD := fun a b => Nat.decLe a.dateTime b.dateTime

instance : IsTotal Stop leD := ⟨fun a b => Nat.le_total a.dateTime b.dateTime⟩

instance : IsTrans Stop leD := ⟨fun _ _ _ h1 h2 => Nat.le_trans h1 h2⟩

/-- Model of `[...].sort((a, b) => compareAsc(parseISO(a.dateTime), parseISO(b.dateTime)))`:
the stable ascending sort by `dateTime`. -/
def sortByDateTime (l : List Stop) : List Stop := l.insertionSort leD

/-- The data taken from the add form: everything `addStop` reads, plus the
id that `crypto.randomUUID()` returns (an external source of fresh names,
passed in as data here).  `cost` is the result of `Number(...)` on the raw
field: `none` models `NaN` (invalid numeric input), `some v` a numeric
value (an absent field yields `Number(null) = 0`, i.e. `some 0`). -/
structure AddInput where
  id : String
  title : String
  address : String
  dateTime : Nat
  notes : String
  cost : Option Int
deriving DecidableEq

/-- JavaScript `x || 0` applied to the result of `Number(...)`: `NaN` and
`0` are falsy and give `0`, any other number is returned unchanged. -/
def jsNumOr0 : Option Int → Int
  | none => 0
  | some v => if v = 0 then 0 else v

/-- The `Stop` literal built inside `addStop` (lines 91-100): fields copied
from the form, `cost` coerced by `Number(...) || 0`, `status` fixed to
`planned`, `order` set to the pre-insertion count `stops.length`. -/
def mkStop (inp : AddInput) (count : Nat) : Stop :=
  { id := inp.id, title := inp.title, address := inp.address,
    dateTime := inp.dateTime, notes := inp.notes,
    cost := some (jsNumOr0 inp.cost), status := Status.planned,
    order := count }

/-- The store mutation of `addStop` (lines 101-102):
`[...stops, newStop].sort(...)`. -/
def addStop (stops : List Stop) (inp : AddInput) : List Stop :=
  sortByDateTime (stops ++ [mkStop inp stops.length])

/-- The save/reset effect (lines 78-86): given the stop list after a
mutation, returns the resulting stop list together with the persisted
entry (`none` when `localStorage.removeItem` erased it, `some l` when
`setItem` stored `l`).  When the count exceeds 10 the state is reset to
empty and the persisted entry is removed; otherwise the state is kept and
persisted. -/
def runEffect (stops : List Stop) : List Stop × Option (List Stop) :=
  if stops.length > 10 then ([], none) else (stops, some stops)

/-- The per-element update of `toggleStatus` (lines 109-115):
`forceStatus || (s.status === 'visited' ? 'planned' : 'visited')` — every
status string is truthy, so a given forced status always wins. -/
def applyToggle (id : String) (force : Option Status) (s : Stop) : Stop :=
  if s.id = id then
    { s with
      status := force.getD
        (if s.status = Status.visited then Status.planned else Status.visited) }
  else s

/-- The operation `toggleStatus` (lines 107-118). -/
def toggleStatus (stops : List Stop) (id : String) (force : Option Status) :
    List Stop :=
  stops.map (applyToggle id force)

/-- The operation `deleteStop` (lines 120-122): `stops.filter(s => s.id !== id)`. -/
def deleteStop (stops : List Stop) (id : String) : List Stop :=
  stops.filter (fun s => s.id != id)

/-- Derived view `sortedStops` (line 124): a sorted copy of the state. -/
def sortedStops (stops : List Stop) : List Stop := sortByDateTime stops

/-- Derived view `nextStop` (line 125):
`sortedStops.find(s => s.status === 'planned')`. -/
def nextStop (stops : List Stop) : Option Stop :=
  (sortedStops stops).find? (fun s => s.status == Status.planned)

/-- JavaScript `stop.cost || 0` read off a stored stop: an absent cost and
a zero cost are falsy and give `0`. -/
def costOr0 (s : Stop) : Int := jsNumOr0 s.cost

/-- Derived view `totalCost` (line 129):
`stops.reduce((acc, stop) => acc + (stop.cost || 0), 0)`. -/
def totalCost (stops : List Stop) : Int :=
  stops.foldl (fun acc s => acc + costOr0 s) 0

/-- A concrete stop used by the evaluation theorems below. -/
def demoStop (n : Nat) (d : Nat) (st : Status) : Stop :=
  { id := toString n, title := "t", address := "a", dateTime := d,
    notes := "", cost := some 0, status := st, order := n }

/-- A concrete 10-stop collection. -/
def demo10 : List Stop := (List.range 10).map (fun n => demoStop n n Status.planned)

/-- A concrete add-form input. -/
def cinA : AddInput :=
  { id := "A", title := "tA", address := "aA", dateTime := 10, notes := "",
    cost := some 0 }

/-- Claim C1: on a collection of exactly 10 stops, `addStop` inserts the
11th stop (the insertion is not rejected: the new stop is an element of
the updated array, whose length is 11), the count of 11 exceeds the cap,
and the save/reset effect clears the collection and removes the persisted
entry. -/
theorem capacity_reset_on_eleventh (stops : List Stop) (inp : AddInput)
    (h : stops.length = 10) :
    (addStop stops inp).length = 11 ∧
    mkStop inp 10 ∈ addStop stops inp ∧
    runEffect (addStop stops inp) = ([], none) := by
  have hlen : (addStop stops inp).length = 11 := by
    unfold addStop sortByDateTime
    rw [List.length_insertionSort]
    simp [h]
  refine ⟨hlen, ?_, ?_⟩
  · unfold addStop sortByDateTime
    rw [List.mem_insertionSort]
    simp [h]
  · unfold runEffect
    rw [hlen]
    simp

/-- Evaluation of claim C1 on a concrete 10-stop collection. -/
theorem capacity_reset_on_eleventh_witness :
    (addStop demo10 cinA).length = 11 ∧
    mkStop cinA 10 ∈ addStop demo10 cinA ∧
    runEffect (addStop demo10 cinA) = ([], none) :=
  capacity_reset_on_eleventh demo10 cinA (by decide)

/-- Length is preserved by `toggleStatus` (it is a map). -/
theorem toggleStatus_length (stops : List Stop) (id : String) (f : Option Status) :
    (toggleStatus stops id f).length = stops.length := by
  simp [toggleStatus]

/-- Claim C3: an unforced toggle on a matching stop sends `visited` to
`planned` and anything else to `visited`; consequently, starting from
`planned`, two successive unforced toggles return the stop to `planned`. -/
theorem toggleStatus_unforced_toggle (stops : List Stop) (id : String)
    (i : Nat) (hi : i < stops.length)
    (hid : (stops.get ⟨i, hi⟩).id = id) :
    ((toggleStatus stops id none).get
        ⟨i, by rw [toggleStatus_length]; exact hi⟩).status
      = (if (stops.get ⟨i, hi⟩).status = Status.visited then Status.planned
         else Status.visited) ∧
    ((stops.get ⟨i, hi⟩).status = Status.planned →
      ((toggleStatus (toggleStatus stops id none) id none).get
          ⟨i, by rw [toggleStatus_length, toggleStatus_length]; exact hi⟩).status
        = Status.planned) := by
  constructor
  · simp only [toggleStatus, List.get_eq_getElem, List.getElem_map]
    simp only [List.get_eq_getElem] at hid
    simp [applyToggle, hid]
  · intro hp
    simp only [List.get_eq_getElem] at hid hp
    simp only [toggleStatus, List.get_eq_getElem, List.getElem_map]
    simp [applyToggle, hid, hp]

/-- Evaluation of claim C3 on a concrete one-stop collection. -/
theorem toggleStatus_unforced_toggle_witness :
    ((toggleStatus [demoStop 0 0 Status.planned] "0" none).get
        ⟨0, by decide⟩).status
      = (if (([demoStop 0 0 Status.planned].get ⟨0, by decide⟩)).status
            = Status.visited then Status.planned else Status.visited) ∧
    (([demoStop 0 0 Status.planned].get ⟨0, by decide⟩).status = Status.planned →
      ((toggleStatus (toggleStatus [demoStop 0 0 Status.planned] "0" none)
          "0" none).get ⟨0, by decide⟩).status = Status.planned) :=
  toggleStatus_unforced_toggle [demoStop 0 0 Status.planned] "0" 0
    (by decide) (by decide)

/-- Claim C7: when no stop carries the given id, both `toggleStatus` and
`deleteStop` return the collection unchanged (total functions, so no
error can be raised). -/
theorem missing_id_noop (stops : List Stop) (id : String) (f : Option Status)
    (h : ∀ s ∈ stops, s.id ≠ id) :
    toggleStatus stops id f = stops ∧ deleteStop stops id = stops := by
  constructor
  · unfold toggleStatus
    induction stops with
    | nil => rfl
    | cons s rest ih =>
      rw [List.map_cons]
      have hs : s.id ≠ id := h s (List.mem_cons_self s rest)
      rw [ih fun t ht => h t (List.mem_cons_of_mem s ht)]
      simp [applyToggle, hs]
  · unfold deleteStop
    rw [List.filter_eq_self]
    intro s hs
    simpa using h s hs

/-- Evaluation of claim C7 on a concrete collection and a fresh id. -/
theorem missing_id_noop_witness :
    toggleStatus [demoStop 0 0 Status.planned] "zz" none
        = [demoStop 0 0 Status.planned] ∧
    deleteStop [demoStop 0 0 Status.planned] "zz"
        = [demoStop 0 0 Status.planned] :=
  missing_id_noop [demoStop 0 0 Status.planned] "zz" none (by decide)

/-- Forcing the same status twice changes nothing the second time. -/
theorem applyToggle_forced_idem (id : String) (st : Status) (s : Stop) :
    applyToggle id (some st) (applyToggle id (some st) s)
      = applyToggle id (some st) s := by
  unfold applyToggle
  by_cases hs : s.id = id
  · simp [hs]
  · simp [hs]

/-- Claim C8: on an existing id, `toggleStatus(id, visited)` is idempotent
(the property in fact holds for every id). -/
theorem forced_toggle_idempotent (stops : List Stop) (id : String)
    (h : id ∈ stops.map Stop.id) :
    toggleStatus (toggleStatus stops id (some Status.visited)) id
        (some Status.visited)
      = toggleStatus stops id (some Status.visited) := by
  unfold toggleStatus
  rw [List.map_map]
  congr 1
  funext s
  exact applyToggle_forced_idem id Status.visited s

/-- Evaluation of claim C8 on a concrete collection. -/
theorem forced_toggle_idempotent_witness :
    toggleStatus (toggleStatus [demoStop 0 0 Status.planned] "0"
        (some Status.visited)) "0" (some Status.visited)
      = toggleStatus [demoStop 0 0 Status.planned] "0" (some Status.visited) :=
  forced_toggle_idempotent [demoStop 0 0 Status.planned] "0" (by decide)

/-- Claim C9: with unique ids, deleting stop `X` removes `X`, keeps the
survivors as a sublist of the original collection (hence every surviving
stop keeps all of its fields, `order` included, and the relative order is
preserved — nothing is renumbered), and keeps every stop other than `X`. -/
theorem deleteStop_frame (stops : List Stop) (X : Stop) (hX : X ∈ stops)
    (hnd : (stops.map Stop.id).Nodup) :
    X ∉ deleteStop stops X.id ∧
    (deleteStop stops X.id).Sublist stops ∧
    ∀ s ∈ stops, s ≠ X → s ∈ deleteStop stops X.id := by
  refine ⟨?_, List.filter_sublist _, ?_⟩
  · intro hmem
    rw [deleteStop, List.mem_filter] at hmem
    simp at hmem
  · intro s hs hne
    rw [deleteStop, List.mem_filter]
    refine ⟨hs, ?_⟩
    have hid : s.id ≠ X.id :=
      fun he => hne (List.inj_on_of_nodup_map hnd hs hX he)
    simpa using hid

/-- Evaluation of claim C9 on a concrete two-stop collection. -/
theorem deleteStop_frame_witness :
    demoStop 0 0 Status.planned
        ∉ deleteStop [demoStop 0 0 Status.planned, demoStop 1 1 Status.visited]
            (demoStop 0 0 Status.planned).id ∧
    (deleteStop [demoStop 0 0 Status.planned, demoStop 1 1 Status.visited]
        (demoStop 0 0 Status.planned).id).Sublist
      [demoStop 0 0 Status.planned, demoStop 1 1 Status.visited] ∧
    ∀ s ∈ [demoStop 0 0 Status.planned, demoStop 1 1 Status.visited],
      s ≠ demoStop 0 0 Status.planned →
        s ∈ deleteStop [demoStop 0 0 Status.planned, demoStop 1 1 Status.visited]
              (demoStop 0 0 Status.planned).id :=
  deleteStop_frame [demoStop 0 0 Status.planned, demoStop 1 1 Status.visited]
    (demoStop 0 0 Status.planned) (by decide) (by decide)

/-- Folding the cost accumulator from any seed adds the sum of the costs. -/
theorem totalCost_foldl (stops : List Stop) :
    ∀ a : Int, stops.foldl (fun acc s => acc + costOr0 s) a
      = a + (stops.map costOr0).sum := by
  induction stops with
  | nil => intro a; simp
  | cons s rest ih =>
    intro a
    rw [List.foldl_cons, ih, List.map_cons, List.sum_cons]
    ring

/-- Status changes do not touch the cost field. -/
theorem applyToggle_cost (id : String) (f : Option Status) (s : Stop) :
    (applyToggle id f s).cost = s.cost := by
  unfold applyToggle
  split <;> rfl

/-- A concrete collection with costs 1000, 0, absent, 2500 and mixed
statuses. -/
def demoCost4 : List Stop :=
  [{ demoStop 0 0 Status.planned with cost := some 1000 },
   { demoStop 1 1 Status.visited with cost := some 0 },
   { demoStop 2 2 Status.skipped with cost := none },
   { demoStop 3 3 Status.planned with cost := some 2500 }]

/-- Claim C5: `totalCost` is the sum of the per-stop costs (absent cost
counts as 0); it is unaffected by status changes (`toggleStatus` with any
forced or unforced status leaves it unchanged), and on costs
`[1000, 0, absent, 2500]` it is 3500. -/
theorem totalCost_spec (stops : List Stop) (id : String) (f : Option Status) :
    totalCost stops = (stops.map costOr0).sum ∧
    totalCost (toggleStatus stops id f) = totalCost stops ∧
    totalCost demoCost4 = 3500 := by
  refine ⟨by rw [totalCost, totalCost_foldl, zero_add], ?_, by decide⟩
  rw [totalCost, totalCost, totalCost_foldl, totalCost_foldl, toggleStatus,
    List.map_map]
  have : costOr0 ∘ applyToggle id f = costOr0 := by
    funext s
    simp [Function.comp, costOr0, applyToggle_cost]
  rw [this]

/-- First-match characterisation of `List.find?`. -/
theorem find?_first {α : Type} (p : α → Bool) (l : List α) (a : α)
    (h : l.find? p = some a) :
    p a = true ∧ ∃ i, ∃ hi : i < l.length, l.get ⟨i, hi⟩ = a ∧
      ∀ j, ∀ hj : j < l.length, j < i → p (l.get ⟨j, hj⟩) = false := by
  induction l with
  | nil => simp [List.find?] at h
  | cons b rest ih =>
    by_cases hb : p b = true
    · rw [List.find?_cons_of_pos _ hb] at h
      cases h
      refine ⟨hb, 0, Nat.succ_pos _, rfl, ?_⟩
      intro j hj hlt
      exact absurd hlt (Nat.not_lt_zero j)
    · rw [List.find?_cons_of_neg _ (by simpa using hb)] at h
      obtain ⟨hp, i, hi, hget, hbef⟩ := ih h
      refine ⟨hp, i + 1, Nat.succ_lt_succ hi, hget, ?_⟩
      intro j hj hlt
      match j, hj with
      | 0, _ => simpa using hb
      | k + 1, hk =>
        exact hbef k (Nat.lt_of_succ_lt_succ hk) (Nat.lt_of_succ_lt_succ hlt)

/-- Claim C6: `nextStop` is absent exactly when no stop in the sorted view
is `planned`; and when it is present it is a `planned` stop occurring in
`sortedStops` strictly before which every stop has a status other than
`planned` (earlier `visited`/`skipped` stops are skipped over). -/
theorem nextStop_spec (stops : List Stop) :
    (nextStop stops = none ↔
      ∀ s ∈ sortedStops stops, s.status ≠ Status.planned) ∧
    ∀ s, nextStop stops = some s →
      s.status = Status.planned ∧
      ∃ i, ∃ hi : i < (sortedStops stops).length,
        (sortedStops stops).get ⟨i, hi⟩ = s ∧
        ∀ j, ∀ hj : j < (sortedStops stops).length,
          j < i → ((sortedStops stops).get ⟨j, hj⟩).status ≠ Status.planned := by
  constructor
  · rw [nextStop, List.find?_eq_none]
    constructor
    · intro h s hs
      simpa using h s hs
    · intro h s hs
      simpa using h s hs
  · intro s hs
    obtain ⟨hp, i, hi, hget, hbef⟩ := find?_first _ _ _ hs
    refine ⟨by simpa using hp, i, hi, hget, ?_⟩
    intro j hj hlt
    simpa using hbef j hj hlt

/-- Evaluation of claim C6 on a concrete collection with statuses
`[visited, skipped, planned, planned]` in chronological order: the third
stop is selected. -/
theorem nextStop_spec_witness :
    nextStop [demoStop 0 0 Status.visited, demoStop 1 1 Status.skipped,
        demoStop 2 2 Status.planned, demoStop 3 3 Status.planned]
      = some (demoStop 2 2 Status.planned) ∧
    (demoStop 2 2 Status.planned).status = Status.planned := by
  refine ⟨by decide, ?_⟩
  exact (nextStop_spec [demoStop 0 0 Status.visited, demoStop 1 1 Status.skipped,
    demoStop 2 2 Status.planned, demoStop 3 3 Status.planned]).2
    (demoStop 2 2 Status.planned) (by decide) |>.1

/-- The stops created by a run of `addStop` calls on collections whose
size starts at `k` and grows by one per call: stop number `n` of the run
receives `order = k + n`. -/
def createdFrom : Nat → List AddInput → List Stop
  | _, [] => []
  | k, inp :: rest => mkStop inp k :: createdFrom (k + 1) rest

/-- Each `addStop` grows the collection by exactly one stop. -/
theorem addStop_length (stops : List Stop) (inp : AddInput) :
    (addStop stops inp).length = stops.length + 1 := by
  simp [addStop, sortByDateTime, List.length_insertionSort]

/-- The updated collection is a permutation of the old one plus the new
stop. -/
theorem addStop_perm (stops : List Stop) (inp : AddInput) :
    List.Perm (addStop stops inp) (stops ++ [mkStop inp stops.length]) :=
  List.perm_insertionSort leD _

/-- Running a sequence of adds yields a permutation of the starting
collection together with all created stops. -/
theorem foldl_addStop_perm (ins : List AddInput) :
    ∀ stops : List Stop,
      List.Perm (List.foldl addStop stops ins)
        (stops ++ createdFrom stops.length ins) := by
  induction ins with
  | nil =>
    intro stops
    simp [createdFrom]
  | cons inp rest ih =>
    intro stops
    rw [List.foldl_cons]
    have h1 := ih (addStop stops inp)
    rw [addStop_length] at h1
    refine h1.trans ?_
    have h2 : List.Perm
        (addStop stops inp ++ createdFrom (stops.length + 1) rest)
        ((stops ++ [mkStop inp stops.length])
            ++ createdFrom (stops.length + 1) rest) :=
      (addStop_perm stops inp).append_right _
    refine h2.trans ?_
    rw [List.append_assoc, List.singleton_append]
    rfl

/-- Strict chronological order on stops. -/
def ltD (a b : Stop) : Prop := a.dateTime < b.dateTime

instance : IsAntisymm Stop ltD :=
  ⟨fun _ _ h1 h2 => absurd (Nat.lt_trans h1 h2) (Nat.lt_irrefl _)⟩

/-- A list sorted by `dateTime` whose `dateTime` values are pairwise
distinct is strictly sorted. -/
theorem sorted_lt_of_sorted_le_nodup {l : List Stop} (hs : l.Sorted leD)
    (hn : (l.map Stop.dateTime).Nodup) : l.Sorted ltD := by
  have hn' : l.Pairwise fun a b => a.dateTime ≠ b.dateTime :=
    List.pairwise_map.mp hn
  exact (List.Pairwise.and hs hn').imp fun h => Nat.lt_of_le_of_ne h.1 h.2

/-- The created stops carry exactly the `dateTime` values of the inputs. -/
theorem createdFrom_map_dateTime (ins : List AddInput) :
    ∀ k, (createdFrom k ins).map Stop.dateTime = ins.map AddInput.dateTime := by
  induction ins with
  | nil => intro k; rfl
  | cons inp rest ih =>
    intro k
    simp [createdFrom, mkStop, ih]

/-- Claim C2: after any sequence of `addStop` calls with pairwise-distinct
`dateTime` values, starting from the empty collection, the derived view
`sortedStops` is exactly the list of all created stops sorted ascending by
`dateTime` — whatever the order of the calls. -/
theorem sortedStops_of_adds (ins : List AddInput)
    (hd : (ins.map AddInput.dateTime).Nodup) :
    sortedStops (List.foldl addStop [] ins)
      = sortByDateTime (createdFrom 0 ins) := by
  have hperm : List.Perm (List.foldl addStop [] ins) (createdFrom 0 ins) := by
    simpa using foldl_addStop_perm ins []
  have hnc : ((createdFrom 0 ins).map Stop.dateTime).Nodup := by
    rw [createdFrom_map_dateTime]
    exact hd
  have hL1 : List.Perm (sortedStops (List.foldl addStop [] ins))
      (createdFrom 0 ins) :=
    (List.perm_insertionSort leD _).trans hperm
  have hLs : (sortedStops (List.foldl addStop [] ins)).Sorted leD :=
    List.sorted_insertionSort leD _
  have hR1 : List.Perm (sortByDateTime (createdFrom 0 ins)) (createdFrom 0 ins) :=
    List.perm_insertionSort leD _
  have hRs : (sortByDateTime (createdFrom 0 ins)).Sorted leD :=
    List.sorted_insertionSort leD _
  have hLn : ((sortedStops (List.foldl addStop [] ins)).map Stop.dateTime).Nodup :=
    (hL1.map Stop.dateTime).nodup_iff.mpr hnc
  have hRn : ((sortByDateTime (createdFrom 0 ins)).map Stop.dateTime).Nodup :=
    (hR1.map Stop.dateTime).nodup_iff.mpr hnc
  exact List.eq_of_perm_of_sorted (hL1.trans hR1.symm)
    (sorted_lt_of_sorted_le_nodup hLs hLn)
    (sorted_lt_of_sorted_le_nodup hRs hRn)

/-- A second concrete add-form input, chronologically before `cinA`. -/
def cinB : AddInput :=
  { id := "B", title := "tB", address := "aB", dateTime := 5, notes := "",
    cost := some 0 }

/-- Evaluation of claim C2 on a concrete two-add run whose second stop is
chronologically first. -/
theorem sortedStops_of_adds_witness :
    sortedStops (List.foldl addStop [] [cinA, cinB])
      = sortByDateTime (createdFrom 0 [cinA, cinB]) :=
  sortedStops_of_adds [cinA, cinB] (by decide)

/-- Status changes do not touch the `dateTime` field. -/
theorem applyToggle_dateTime (id : String) (f : Option Status) (s : Stop) :
    (applyToggle id f s).dateTime = s.dateTime := by
  unfold applyToggle
  split <;> rfl

/-- Collections reachable through the component's mutations, starting from
the empty initial state: `addStop` followed by the save/reset effect,
`toggleStatus`, and `deleteStop`. -/
inductive Reachable : List Stop → Prop where
  | init : Reachable []
  | add (stops : List Stop) (inp : AddInput) : Reachable stops →
      Reachable (runEffect (addStop stops inp)).1
  | toggle (stops : List Stop) (id : String) (f : Option Status) :
      Reachable stops → Reachable (toggleStatus stops id f)
  | del (stops : List Stop) (id : String) :
      Reachable stops → Reachable (deleteStop stops id)

/-- Amended claim C10 (invariant part): every reachable stored collection
is ordered ascending by `dateTime` — `addStop` re-sorts the array (and the
capacity reset leaves the trivially sorted empty list), `toggleStatus`
rewrites elements in place without touching `dateTime`, and `deleteStop`
filters, preserving relative order. -/
theorem reachable_sorted (stops : List Stop) (h : Reachable stops) :
    stops.Sorted leD := by
  induction h with
  | init => exact List.sorted_nil
  | add st inp _ _ =>
    by_cases hc : (addStop st inp).length > 10
    · unfold runEffect
      rw [if_pos hc]
      exact List.sorted_nil
    · unfold runEffect
      rw [if_neg hc]
      exact List.sorted_insertionSort leD _
  | toggle st id f _ ih =>
    refine List.Pairwise.map _ (fun a b hab => ?_) ih
    show leD (applyToggle id f a) (applyToggle id f b)
    unfold leD
    rw [applyToggle_dateTime, applyToggle_dateTime]
    exact hab
  | del st id _ ih =>
    exact List.Pairwise.sublist (List.filter_sublist _) ih

/-- Evaluation of the amended claim C10 on a concrete reachable state. -/
theorem reachable_sorted_witness :
    ((runEffect (addStop [] cinA)).1).Sorted leD :=
  reachable_sorted _ (Reachable.add [] cinA Reachable.init)

/-- Counterexample to claim C10's reading of the `order` field: add a stop
with timestamp 10 and then a stop with timestamp 5.  The second stop is
chronologically first among the stops present at its add time, yet its
`order` field is 1, the pre-insertion count — `order` records the count of
stops present at add time, not a chronological position. -/
theorem order_field_counterexample :
    List.foldl addStop [] [cinA, cinB] = [mkStop cinB 1, mkStop cinA 0] ∧
    (mkStop cinB 1).dateTime < (mkStop cinA 0).dateTime ∧
    (mkStop cinB 1).order ≠ 0 := by decide

/-- A concrete add-form input whose cost field parses to a negative
number. -/
def cinNeg : AddInput :=
  { id := "N", title := "tN", address := "aN", dateTime := 7, notes := "",
    cost := some (-5) }

/-- Counterexample to claim C4: `Number(...) || 0` passes a negative
parsed cost through unchanged, so the stop created from a cost input of
`-5` stores the negative value `-5` — and the insertion still goes
through. -/
theorem negative_cost_counterexample :
    (mkStop cinNeg 0).cost = some (-5) ∧
    ¬ (0 : Int) ≤ -5 ∧
    mkStop cinNeg 0 ∈ addStop [] cinNeg := by decide

/-- Amended claim C4: the cost stored by `addStop` is exactly the
JavaScript coercion `Number(input) || 0` — absent or invalid input (and
an explicit 0) is coerced to 0, and a malformed cost never rejects the
operation (the collection always grows by one stop); a negative numeric
input, however, is stored as-is, so non-negativity is not guaranteed. -/
theorem addStop_cost_coercion (stops : List Stop) (inp : AddInput) :
    (mkStop inp stops.length).cost = some (jsNumOr0 inp.cost) ∧
    jsNumOr0 none = 0 ∧
    (addStop stops inp).length = stops.length + 1 :=
  ⟨rfl, rfl, addStop_length stops inp⟩
